import Mathlib

/-!
Verification development for the `sky` language front end
(`src/parser/lexer.rs`, `src/parser/mod.rs`, `src/parser/ast.rs`).

The Rust sources are shallowly embedded: source text is a `List Char`
(the `Cursor` in `lexer.rs` works on `Chars`, i.e. on characters, and
advances its byte counters once per character), machine integers are
`Int`/`Nat` with explicit range checks where the code checks overflow,
and the `f32`/`f64` arithmetic of `parse_based_f32`/`parse_based_f64`
is idealised over `ℚ`; every value appearing in the theorems below is
exactly representable, so the idealisation is exact there.  Fallible or
possibly non-terminating code paths return `Option`: `none` marks a
panic or an infinite loop of the original program (for example the
`eat_while` loop of `lexer.rs` spins forever when its predicate holds
at end of input while a lookahead token is present).
-/

/-- The single-character quote `'` (used by `read_single_quoted_string`). -/
def sqChar : Char := Char.ofNat 39

/-- `NumBase` from `lexer.rs`. -/
inductive NumBase where
  | bin
  | oct
  | dec
  | hex
deriving DecidableEq, Repr

/-- `impl Into<u32> for NumBase` from `lexer.rs`. -/
def NumBase.toRadix : NumBase → Nat
  | .bin => 2
  | .oct => 8
  | .dec => 10
  | .hex => 16

/-- `DelimKind` from `lexer.rs`. -/
inductive DelimKind where
  | bracket
  | brace
  | paren
deriving DecidableEq, Repr

/-- `LitKind` from `lexer.rs`: `Int`/`Float` carry an optional base and an
optional suffix offset, `Str` carries nothing. -/
inductive LitKind where
  | int (base : Option NumBase) (suffOff : Option Nat)
  | float (base : Option NumBase) (suffOff : Option Nat)
  | str
deriving DecidableEq, Repr

/-- `TokenKind` from `lexer.rs` (the `Unkown` spelling is the source's). -/
inductive TokenKind where
  | lineComment
  | blockComment
  | ident
  | lit (kind : LitKind)
  | eq
  | lt
  | gt
  | dot
  | comma
  | not
  | and
  | or
  | openDelim (kind : DelimKind)
  | closeDelim (kind : DelimKind)
  | percent
  | dollar
  | hash
  | div
  | mul
  | add
  | sub
  | colon
  | at
  | semi
  | question
  | whitespace
  | unkown
deriving DecidableEq, Repr

/-- `Token` from `lexer.rs`: `{kind, size, index}`. -/
structure Token where
  kind : TokenKind
  size : Nat
  index : Nat
deriving DecidableEq, Repr

/-- `is_id_start` from `lexer.rs`. -/
def isIdStart (ch : Char) : Bool :=
  (('a' ≤ ch && ch ≤ 'z') || ('A' ≤ ch && ch ≤ 'Z') || ch = '_')

/-- `is_id_continue` from `lexer.rs`. -/
def isIdContinue (ch : Char) : Bool :=
  (('a' ≤ ch && ch ≤ 'z') || ('A' ≤ ch && ch ≤ 'Z') ||
   ('0' ≤ ch && ch ≤ '9') || ch = '_' || ch = '#' || ch = '$' || ch = '@')

/-- Rust's `char::is_whitespace` (Unicode `White_Space`), used by
`Lexer::read_token` and `Lexer::eat_whitespace`. -/
def isWhitespaceRust (ch : Char) : Bool :=
  ch = ' ' || ch = '\t' || ch = '\n' || ch = '\r' ||
  ch = Char.ofNat 0x0b || ch = Char.ofNat 0x0c || ch = Char.ofNat 0x85 ||
  ch = Char.ofNat 0xa0 || ch = Char.ofNat 0x1680 ||
  (Char.ofNat 0x2000 ≤ ch && ch ≤ Char.ofNat 0x200a) ||
  ch = Char.ofNat 0x2028 || ch = Char.ofNat 0x2029 ||
  ch = Char.ofNat 0x202f || ch = Char.ofNat 0x205f || ch = Char.ofNat 0x3000

/-- `Cursor` from `lexer.rs`: a resettable length counter, an absolute
index, and the remaining characters.  `next` advances `len` and `index`
even when the buffer is already empty, exactly as the Rust `next` does. -/
structure Cursor where
  len : Nat
  index : Nat
  buf : List Char
deriving DecidableEq, Repr

/-- `Cursor::new`. -/
def Cursor.new (buf : List Char) : Cursor := ⟨0, 0, buf⟩

/-- `Cursor::peek`. -/
def Cursor.peek (c : Cursor) : Option Char := c.buf.head?

/-- `Cursor::preview` (the character after the next one). -/
def Cursor.preview (c : Cursor) : Option Char := c.buf.tail.head?

/-- The state change of `Cursor::next`: `len` and `index` always grow by
one; past the end the buffer simply stays empty. -/
def Cursor.adv (c : Cursor) : Cursor := ⟨c.len + 1, c.index + 1, c.buf.tail⟩

/-- `skip` iterations of `self.input.next()` at the end of `eat_while`. -/
def Cursor.skipN : Nat → Cursor → Cursor
  | 0, c => c
  | k + 1, c => Cursor.skipN k c.adv

/-- `Cursor::eof`. -/
def Cursor.eofC (c : Cursor) : Bool := c.buf.isEmpty

/-- `Cursor::reset_len`. -/
def Cursor.resetLen (c : Cursor) : Cursor := ⟨0, c.index, c.buf⟩

/-- The loop of `Lexer::eat_while` over a pure predicate on
`(peek, preview)`.  The loop condition is `predicate && !self.eof()`
where `self.eof()` is the **lexer** eof, i.e. cursor exhausted *and* no
lookahead token; `oldSome` records whether `cur_tok` holds a token while
this runs.  When the predicate still holds at end of input and
`oldSome` is true the Rust loop never terminates: that is `none`.
After the loop, `skip` further `next` calls run (possibly past the
end). -/
def eatWhileAux (p : Option Char → Option Char → Bool) (oldSome : Bool)
    (skip : Nat) : List Char → Nat → Nat → Option Cursor
  | [], len, index =>
      if p none none && oldSome then none
      else some (Cursor.skipN skip ⟨len, index, []⟩)
  | ch :: rest, len, index =>
      if p (some ch) rest.head? then
        eatWhileAux p oldSome skip rest (len + 1) (index + 1)
      else some (Cursor.skipN skip ⟨len, index, ch :: rest⟩)

/-- `Lexer::eat_while` (pure-predicate form). -/
def eatWhile (p : Option Char → Option Char → Bool) (oldSome : Bool)
    (skip : Nat) (c : Cursor) : Option Cursor :=
  eatWhileAux p oldSome skip c.buf c.len c.index

/-- The predicate of `read_double_quoted_string`: keep scanning unless the
preview is `"` and the current character is not a backslash. -/
def dqPred (first second : Option Char) : Bool :=
  match second with
  | some '"' => first == some '\\'
  | _ => true

/-- The predicate of `read_single_quoted_string` (terminator `'`). -/
def sqPred (first second : Option Char) : Bool :=
  if second == some sqChar then first == some '\\' else true

/-- The predicate of `eat_block_comment`: stop when the preview is `/`
and the current character is `*`. -/
def blockCommentPred (first second : Option Char) : Bool :=
  match second with
  | some '/' => !(first == some '*')
  | _ => true

/-- Digit classes used by the numeric scanners. -/
def isDigit09 (ch : Char) : Bool := '0' ≤ ch && ch ≤ '9'

def isDigit01 (ch : Char) : Bool := '0' ≤ ch && ch ≤ '1'

def isDigit07 (ch : Char) : Bool := '0' ≤ ch && ch ≤ '7'

def isHexDigit (ch : Char) : Bool :=
  isDigit09 ch || ('a' ≤ ch && ch ≤ 'f') || ('A' ≤ ch && ch ≤ 'F')

/-- Fraction continuation class of `eat_hex_number` — the source matches
`'0'..='1' | 'a'..='f' | 'A'..='F'` (not `'0'..='9'`). -/
def isHexFracDigit (ch : Char) : Bool :=
  isDigit01 ch || ('a' ≤ ch && ch ≤ 'f') || ('A' ≤ ch && ch ≤ 'F')

/-- Lift a character class to an `eat_while` predicate on the peek. -/
def classPred (f : Char → Bool) (first : Option Char) (_ : Option Char) : Bool :=
  match first with
  | some ch => f ch
  | none => false

/-- `eat_line_comment`: scans to the first `\n`; when the preview after
the `\n` is `\r` the predicate itself consumes the `\n` and the final
skip consumes the `\r`, otherwise the skip consumes the `\n`.  At end of
input the predicate is true, so with a lookahead token present (`oldSome`)
the Rust loop diverges. -/
def eatLineCommentAux (oldSome : Bool) : List Char → Nat → Nat → Option Cursor
  | [], len, index =>
      if oldSome then none else some (Cursor.skipN 1 ⟨len, index, []⟩)
  | '\n' :: rest, len, index =>
      match rest.head? with
      | some '\r' => some (Cursor.skipN 1 ⟨len + 1, index + 1, rest⟩)
      | _ => some (Cursor.skipN 1 ⟨len, index, '\n' :: rest⟩)
  | _ :: rest, len, index => eatLineCommentAux oldSome rest (len + 1) (index + 1)

def eatLineComment (oldSome : Bool) (c : Cursor) : Option Cursor :=
  eatLineCommentAux oldSome c.buf c.len c.index

/-- `eat_num_suffix`: a leading `u`/`i`/`f` is consumed, then a maximal
run of decimal digits or of lowercase letters, depending on the next
character. -/
def eatNumSuffix (oldSome : Bool) (c : Cursor) : Option Cursor :=
  match c.peek with
  | some 'u' | some 'i' | some 'f' =>
      match c.adv.peek with
      | some ch =>
          if isDigit09 ch then eatWhile (classPred isDigit09) oldSome 0 c.adv
          else if 'a' ≤ ch && ch ≤ 'z' then
            eatWhile (classPred (fun ch => 'a' ≤ ch && ch ≤ 'z')) oldSome 0 c.adv
          else some c.adv
      | none => some c.adv
  | _ => some c

/-- Checks `if let Some('u') | Some('i') | Some('f') = self.input.peek()`. -/
def peekIsSuffixStart (c : Cursor) : Bool :=
  match c.peek with
  | some 'u' | some 'i' | some 'f' => true
  | _ => false

/-- `eat_number` (decimal run, no recorded base). -/
def eatNumber (oldSome : Bool) (c : Cursor) : Option (TokenKind × Cursor) :=
  match eatWhile (classPred isDigit09) oldSome 0 c with
  | none => none
  | some c1 =>
    if c1.peek == some '.' && (c1.preview.map isDigit09).getD false then
      match eatWhile (classPred isDigit09) oldSome 0 c1.adv with
      | none => none
      | some c3 =>
        match eatNumSuffix oldSome c3 with
        | none => none
        | some c4 => some (.lit (.float none (some c3.len)), c4)
    else if peekIsSuffixStart c1 then
      match eatNumSuffix oldSome c1 with
      | none => none
      | some c2 => some (.lit (.int none (some c1.len)), c2)
    else some (.lit (.int none none), c1)

/-- `eat_dec_number`, `eat_oct_number`, `eat_bin_number`: consume the
prefix character already peeked, then a digit run, an optional fraction
(a `.` immediately followed by a digit of the same class), and an
optional suffix.  Shared body, parameterised by digit class and
recorded base. -/
def eatBasedNumber (digit : Char → Bool) (base : NumBase) (oldSome : Bool)
    (c : Cursor) : Option (TokenKind × Cursor) :=
  match eatWhile (classPred digit) oldSome 0 c.adv with
  | none => none
  | some c1 =>
    if c1.peek == some '.' && (c1.preview.map digit).getD false then
      match eatWhile (classPred digit) oldSome 0 c1.adv with
      | none => none
      | some c3 =>
        match eatNumSuffix oldSome c3 with
        | none => none
        | some c4 => some (.lit (.float (some base) (some c3.len)), c4)
    else if peekIsSuffixStart c1 then
      match eatNumSuffix oldSome c1 with
      | none => none
      | some c2 => some (.lit (.int (some base) (some c1.len)), c2)
    else some (.lit (.int (some base) none), c1)

/-- `eat_hex_number`: like the other based scanners, except that the
fraction *continuation* class is `0-1 a-f A-F` and the fraction suffix
offset is recorded only when the character after the fraction is
exactly `f` (both quirks are in the source). -/
def eatHexNumber (oldSome : Bool) (c : Cursor) : Option (TokenKind × Cursor) :=
  match eatWhile (classPred isHexDigit) oldSome 0 c.adv with
  | none => none
  | some c1 =>
    if c1.peek == some '.' && (c1.preview.map isHexDigit).getD false then
      match eatWhile (classPred isHexFracDigit) oldSome 0 c1.adv with
      | none => none
      | some c3 =>
        match eatNumSuffix oldSome c3 with
        | none => none
        | some c4 =>
          some (.lit (.float (some .hex)
            (if c3.peek == some 'f' then some c3.len else none)), c4)
    else if peekIsSuffixStart c1 then
      match eatNumSuffix oldSome c1 with
      | none => none
      | some c2 => some (.lit (.int (some .hex) (some c1.len)), c2)
    else some (.lit (.int (some .hex) none), c1)

/-- `read_number`: a leading `0` selects a based scanner from the next
character (`b`/`o`/`x`, anything else decimal with the next character
consumed unconditionally); at end of input a bare `Int` token results;
otherwise the plain decimal scanner runs. -/
def readNumber (first : Char) (oldSome : Bool) (c : Cursor) :
    Option (TokenKind × Cursor) :=
  if first = '0' then
    if c.eofC then some (.lit (.int none none), c)
    else
      match c.peek with
      | some 'b' => eatBasedNumber isDigit01 .bin oldSome c
      | some 'o' => eatBasedNumber isDigit07 .oct oldSome c
      | some 'x' => eatHexNumber oldSome c
      | _ => eatBasedNumber isDigit09 .dec oldSome c
  else eatNumber oldSome c

/-- `read_div_or_comment`. -/
def readDivOrComment (oldSome : Bool) (c : Cursor) :
    Option (TokenKind × Cursor) :=
  match c.peek with
  | some '*' => (eatWhile blockCommentPred oldSome 2 c).map (fun c' => (.blockComment, c'))
  | some '/' => (eatLineComment oldSome c).map (fun c' => (.lineComment, c'))
  | _ => some (.div, c)

/-- The character dispatch of `Lexer::read_token` (the body of its
`match ch`), applied to the cursor that has just consumed `ch`. -/
def readTokenDispatch (oldSome : Bool) (ch : Char) (c1 : Cursor) :
    Option (TokenKind × Cursor) :=
  match ch with
      | '@' => some (.at, c1)
      | '$' => some (.dollar, c1)
      | '&' => some (.and, c1)
      | '|' => some (.or, c1)
      | ':' => some (.colon, c1)
      | '.' => some (.dot, c1)
      | ',' => some (.comma, c1)
      | '(' => some (.openDelim .paren, c1)
      | ')' => some (.closeDelim .paren, c1)
      | '[' => some (.openDelim .bracket, c1)
      | ']' => some (.closeDelim .bracket, c1)
      | '\x7b' => some (.openDelim .brace, c1)
      | '\x7d' => some (.closeDelim .brace, c1)
      | ';' => some (.semi, c1)
      | '+' => some (.add, c1)
      | '-' => some (.sub, c1)
      | '*' => some (.mul, c1)
      | '/' => readDivOrComment oldSome c1
      | '?' => some (.question, c1)
      | '!' => some (.not, c1)
      | '#' => some (.hash, c1)
      | '=' => some (.eq, c1)
      | '<' => some (.lt, c1)
      | '>' => some (.gt, c1)
      | '"' => (eatWhile dqPred oldSome 2 c1).map (fun c' => (.lit .str, c'))
      | _ =>
        if ch = sqChar then
          (eatWhile sqPred oldSome 0 c1).map (fun c' => (.lit .str, c'))
        else if isDigit09 ch then readNumber ch oldSome c1
        else if isIdStart ch then
          (eatWhile (classPred isIdContinue) oldSome 0 c1).map
            (fun c' => (.ident, c'))
        else if isWhitespaceRust ch then
          (eatWhile (classPred isWhitespaceRust) oldSome 0 c1).map
            (fun c' => (.whitespace, c'))
        else some (.unkown, c1)

/-- `Lexer::read_token` on a cursor; `oldSome` is whether `cur_tok`
holds a token while the tokenizer runs (it does for every read except
the very first, because `next` refills `cur_tok` only after reading).
Returns the token paired with the advanced, length-reset cursor;
`some (none, _)` is the end-of-input result and `none` marks a read
that would never terminate. -/
def readToken (oldSome : Bool) (c : Cursor) : Option (Option Token × Cursor) :=
  match c.buf with
  | [] => some (none, c)
  | ch :: rest =>
    match readTokenDispatch oldSome ch ⟨c.len + 1, c.index + 1, rest⟩ with
    | none => none
    | some (kind, c2) =>
        some (some ⟨kind, c2.len, c2.index - c2.len⟩, c2.resetLen)

/-- `Lexer` from `lexer.rs`: a cursor plus one token of lookahead. -/
structure Lexer where
  input : Cursor
  curTok : Option Token
deriving DecidableEq, Repr

/-- `Lexer::new` (which immediately calls `peek`, populating the
lookahead; `cur_tok` is empty during that first read, so it cannot
diverge, but the `Option` is kept for uniformity). -/
def Lexer.mkNew (code : List Char) : Option Lexer :=
  (readToken false (Cursor.new code)).map (fun tc => ⟨tc.2, tc.1⟩)

/-- `Lexer::next`: returns the lookahead and refills it; `cur_tok` still
holds the old token while `read_token` runs. -/
def lexNext (l : Lexer) : Option (Option Token × Lexer) :=
  (readToken l.curTok.isSome l.input).map (fun tc => (l.curTok, ⟨tc.2, tc.1⟩))

/-- `Lexer::peek`: populates the lookahead on demand (with `cur_tok`
empty during the read). -/
def lexPeek (l : Lexer) : Option (Option Token × Lexer) :=
  match l.curTok with
  | some t => some (some t, l)
  | none => (readToken false l.input).map (fun tc => (tc.1, ⟨tc.2, tc.1⟩))

/-- `Lexer::eof`. -/
def lexEof (l : Lexer) : Bool := l.input.buf.isEmpty && l.curTok.isNone

/-- All tokens of a source, in order, bounded by fuel; a read that
diverges or the end of input stops the list. -/
def lexAll : Nat → Lexer → List Token
  | 0, _ => []
  | n + 1, l =>
    match lexNext l with
    | none => []
    | some (none, _) => []
    | some (some t, l') => t :: lexAll n l'

/-- The token stream the lexer emits for a source. -/
def lexList (n : Nat) (src : List Char) : List Token :=
  match Lexer.mkNew src with
  | none => []
  | some l => lexAll n l

/-! ## AST and parser state (`mod.rs`, `ast.rs`)

`mod.rs` is written against richer `ast`/`scope`/`symbols`/`error`
modules than the ones present under `src/` (for example it uses
`BinOp {kind, left, right}` with a `BinOpKind` carrying a `u8`
precedence, `NumExpr` variants with payloads for every width, and
`Expr::Symbol`/`NSAccess`/`VarDef`/`Fn`/`If` variants that `ast.rs`
lacks).  The shapes below follow `mod.rs`'s usage; the pieces whose
definitions are missing from `src/` are modelled from the spec and
marked as such. -/

/-- Modelled from the spec: the binary operator kinds named by
`Parser::parse_bin_op` (`BinOpKind` is not under `src/`). -/
inductive BinOpKind where
  | add
  | sub
  | mul
  | div
  | mod
  | pow
  | eq
  | lt
  | gt
  | ltEq
  | gtEq
  | assign
deriving DecidableEq, Repr

/-- Modelled from the spec: the `u8` precedence each `BinOpKind`
converts into (`impl Into<u8> for BinOpKind` is not under `src/`);
the spec fixes "`Pow` highest, then `Mul/Div/Mod`, then `Add/Sub`,
then comparisons, then `Assign` lowest". -/
def BinOpKind.prec : BinOpKind → Nat
  | .pow => 4
  | .mul | .div | .mod => 3
  | .add | .sub => 2
  | .eq | .lt | .gt | .ltEq | .gtEq => 1
  | .assign => 0

/-- The exact-rational carrier for the `f32`/`f64` values of the
embedding: an explicit numerator/denominator pair.  The arithmetic
below mirrors the source's floating-point operations exactly on the
values they are applied to (integer-valued operands and short decimal
fractions, all exactly representable); `toRat` interprets the pair as
the rational it denotes. -/
structure QRep where
  num : Int
  den : Int
deriving DecidableEq, Repr

/-- The rational value a `QRep` denotes. -/
def QRep.toRat (q : QRep) : ℚ := (q.num : ℚ) / (q.den : ℚ)

/-- `i32 as f64` / `i32 as f32`. -/
def QRep.ofInt (v : Int) : QRep := ⟨v, 1⟩

/-- Exact float addition. -/
def QRep.add (a b : QRep) : QRep :=
  ⟨a.num * b.den + b.num * a.den, a.den * b.den⟩

/-- Exact float multiplication. -/
def QRep.mul (a b : QRep) : QRep := ⟨a.num * b.num, a.den * b.den⟩

/-- Exact float division. -/
def QRep.div (a b : QRep) : QRep := ⟨a.num * b.den, a.den * b.num⟩

/-- Float `<` (cross-multiplied form; every comparison performed by the
embedded code has positive denominators). -/
def QRep.ltB (a b : QRep) : Bool := a.num * b.den < b.num * a.den

/-- `NumExpr` as used by `Parser::parse_num`: a concrete value tagged by
width/signedness (the `ast.rs` under `src/` has payload-free variants;
the spec prescribes native values, which is what `mod.rs` constructs).
`f32`/`f64` carry the exact-rational carrier. -/
inductive NumExpr where
  | i32 (v : Int)
  | i64 (v : Int)
  | u32 (v : Nat)
  | u64 (v : Nat)
  | f32 (v : QRep)
  | f64 (v : QRep)
deriving DecidableEq, Repr

/-- Modelled from the spec: `Symbol::Unkown {name, line, col}` from the
missing `symbols` module; the parser always records position `0,0`. -/
inductive SymbolV where
  | unkown (name : List Char) (line col : Nat)
deriving DecidableEq, Repr

/-- Modelled from the spec: the missing `types` module's `Type` (only
ever used as the value type of an always-empty parameter map). -/
inductive TypeV where
  | unknown
deriving DecidableEq, Repr

/-- `Expr` as used by `mod.rs` (struct payloads `BinOp`, `IfExpr`,
`Call`, `VarDefExpr`, `FnExpr` are inlined into the constructors). -/
inductive Expr where
  | num (v : NumExpr)
  | str (s : List Char)
  | symbol (s : SymbolV)
  | nsAccess (l r : Expr)
  | binOp (kind : BinOpKind) (left right : Expr)
  | codeBlock (exprs : List Expr)
  | fn (name : List Char) (args : List (List Char × TypeV)) (ret : Expr)
  | ifE (cond thenBranch : Expr) (elseBranch : Option Expr)
  | call (callee : Expr) (args : List Expr)
  | list (exprs : List Expr)
  | varDef (name : List Char) (isMut : Bool) (initial : Option Expr)
  | null
deriving Repr

/-- Modelled from the spec: `ErrorKind` of the missing `error` module —
a single kind, `UnexpectedToken`. -/
inductive ErrorKind where
  | unexpectedToken
deriving DecidableEq, Repr

/-- Modelled from the spec: `Error::new(kind, index, len)` carries the
byte index and length of the offending span. -/
structure Error where
  kind : ErrorKind
  index : Nat
  len : Nat
deriving DecidableEq, Repr

/-- Modelled from the spec: a `Scope` is a named lexical environment
with a navigational parent link; `Scope::new_named` makes a root,
`.child()` a child of the receiver. -/
inductive Scope where
  | namedS (name : List Char)
  | child (parent : Scope)
deriving DecidableEq, Repr

/-- `Parser` from `mod.rs`: lexer, accumulated errors, the borrowed
source, and the scope stack (head of the list = top of the stack, i.e.
`Vec::last`). -/
structure PState where
  code : List Char
  lexer : Lexer
  errors : List Error
  scopeStack : List Scope
deriving DecidableEq, Repr

/-- `str::get(a..b)`: `some` of the slice when the range is ordered and
in bounds, `none` otherwise (character granularity, matching the
character-counting cursor). -/
def sliceGet (code : List Char) (a b : Nat) : Option (List Char) :=
  if a ≤ b && b ≤ code.length then some ((code.drop a).take (b - a)) else none

/-- `Parser::push_error` (its `dbg!` only prints). -/
def pushErrorF (s : PState) (index len : Nat) : PState :=
  { s with errors := s.errors ++ [⟨.unexpectedToken, index, len⟩] }

/-- Modelled from the spec: `Lexer::get_str(len)` (not in `lexer.rs`;
`Parser::has_str` compares it to a literal) — the source text at the
current lookahead token's start, `len` characters long. -/
def lexGetStr (code : List Char) (l : Lexer) (n : Nat) : Option (List Char) :=
  match l.curTok with
  | some t => sliceGet code t.index (t.index + n)
  | none => none

/-- `Parser::has_str`. -/
def hasStrP (s : PState) (txt : List Char) : Bool :=
  lexGetStr s.code s.lexer txt.length == some txt

/-- `Parser::has_type`. -/
def hasTypeP (s : PState) (kind : TokenKind) : Bool :=
  match s.lexer.curTok with
  | some t => t.kind == kind
  | none => false

/-- `Parser::_get_tok_val`. -/
def getTokVal (code : List Char) (t : Token) : Option (List Char) :=
  sliceGet code t.index (t.index + t.size)

/-- Modelled from the spec: `Lexer::get_tok` (not in `lexer.rs`) — the
text of the current lookahead token, populated on demand like `peek`. -/
def lexGetTok (code : List Char) (l : Lexer) : Option (Option (List Char) × Lexer) :=
  (lexPeek l).map fun tl =>
    (tl.1.bind (fun t => getTokVal code t), tl.2)

/-- Modelled from the spec: `Lexer::eat_whitespace` (not in `lexer.rs`) —
drops a whitespace lookahead token (whitespace runs are maximal, so one
token suffices). -/
def lexEatWs (l : Lexer) : Option Lexer :=
  match l.curTok with
  | some t =>
      if t.kind == .whitespace then (lexNext l).map (fun r => r.2) else some l
  | none => some l

/-- `Parser::skip_whitespace`: peek, and consume if the lookahead is a
whitespace token. -/
def skipWhitespaceP (s : PState) : Option PState :=
  match lexPeek s.lexer with
  | none => none
  | some (t?, lx) =>
    let s := { s with lexer := lx }
    match t? with
    | some t =>
        if t.kind == .whitespace then (lexNext s.lexer).map
          (fun r => { s with lexer := r.2 })
        else some s
    | none => some s

/-- Advance the parser's lexer one token (`self.lexer.next()` with the
returned token discarded). -/
def pAdvance (s : PState) : Option PState :=
  (lexNext s.lexer).map (fun r => { s with lexer := r.2 })

/-! ## Numeric literal interpretation (`Parser::parse_num` and the
based-float routines) -/

/-- Rust `char::to_digit`. -/
def charToDigit (ch : Char) (radix : Nat) : Option Nat :=
  let v :=
    if isDigit09 ch then some (ch.toNat - '0'.toNat)
    else if 'a' ≤ ch && ch ≤ 'z' then some (ch.toNat - 'a'.toNat + 10)
    else if 'A' ≤ ch && ch ≤ 'Z' then some (ch.toNat - 'A'.toNat + 10)
    else none
  match v with
  | some v => if v < radix then some v else none
  | none => none

/-- Digit accumulation for `from_str_radix` (emptiness of the digit run
is checked by the caller, as in the Rust source). -/
def digitsValGo (radix acc : Nat) : List Char → Option Nat
  | [] => some acc
  | ch :: rest =>
    match charToDigit ch radix with
    | some d => digitsValGo radix (acc * radix + d) rest
    | none => none

def digitsVal (radix : Nat) (s : List Char) : Option Nat :=
  digitsValGo radix 0 s

/-- Core of Rust `from_str_radix`: an optional sign (`-` only for
signed types), then a non-empty valid digit run; radixes outside
`2..=36` panic in Rust, modelled as `none`. -/
def fromStrRadixCore (signed : Bool) (radix : Nat) (s : List Char) : Option Int :=
  if radix < 2 || 36 < radix then none
  else
    match s with
    | [] => none
    | ch :: rest =>
      let (neg, digits) :=
        if ch = '+' then (false, rest)
        else if ch = '-' && signed then (true, rest)
        else (false, s)
      match digits with
      | [] => none
      | _ =>
        match digitsVal radix digits with
        | some v => some (if neg then -(v : Int) else (v : Int))
        | none => none

/-- `i32::from_str_radix` (overflow is an error). -/
def i32FromStrRadix (radix : Nat) (s : List Char) : Option Int :=
  (fromStrRadixCore true radix s).bind fun v =>
    if -(2 ^ 31) ≤ v && v ≤ 2 ^ 31 - 1 then some v else none

/-- `i64::from_str_radix`. -/
def i64FromStrRadix (radix : Nat) (s : List Char) : Option Int :=
  (fromStrRadixCore true radix s).bind fun v =>
    if -(2 ^ 63) ≤ v && v ≤ 2 ^ 63 - 1 then some v else none

/-- `u32::from_str_radix`. -/
def u32FromStrRadix (radix : Nat) (s : List Char) : Option Nat :=
  (fromStrRadixCore false radix s).bind fun v =>
    if 0 ≤ v && v ≤ 2 ^ 32 - 1 then some v.toNat else none

/-- `u64::from_str_radix`. -/
def u64FromStrRadix (radix : Nat) (s : List Char) : Option Nat :=
  (fromStrRadixCore false radix s).bind fun v =>
    if 0 ≤ v && v ≤ 2 ^ 64 - 1 then some v.toNat else none

/-- First segment of `num.split('.')`. -/
def splitDotLeft (s : List Char) : List Char := s.takeWhile (· ≠ '.')

/-- Second segment of `num.split('.')`. -/
def splitDotRight (s : List Char) : List Char :=
  ((s.dropWhile (· ≠ '.')).tail).takeWhile (· ≠ '.')

/-- The `while divider < right { divider *= 10 }` loop of
`parse_based_f64`/`parse_based_f32`; the fuel (40) can never be
exhausted for values produced by `i32::from_str_radix`. -/
def divLoop : Nat → QRep → QRep → QRep
  | 0, d, _ => d
  | f + 1, d, r => if d.ltB r then divLoop f (d.mul ⟨10, 1⟩) r else d

/-- `parse_based_f64`: split at the first `.`, parse both parts with
`i32::from_str_radix`, divide the right part by the loop's power of
ten, and sum (exact arithmetic on the `f64` values). -/
def parseBasedF64 (base : Nat) (num : List Char) : Option QRep :=
  if num.contains '.' then
    match i32FromStrRadix base (splitDotLeft num),
          i32FromStrRadix base (splitDotRight num) with
    | some l, some r =>
        let divider := divLoop 40 ⟨1, 1⟩ (QRep.ofInt r)
        some ((QRep.ofInt l).add ((QRep.ofInt r).div divider))
    | _, _ => none
  else (i32FromStrRadix base num).map QRep.ofInt

/-- `parse_based_f32` (same computation, performed in `f32` in the
source; identical on the exact values). -/
def parseBasedF32 (base : Nat) (num : List Char) : Option QRep :=
  if num.contains '.' then
    match i32FromStrRadix base (splitDotLeft num),
          i32FromStrRadix base (splitDotRight num) with
    | some l, some r =>
        let divider := divLoop 40 ⟨1, 1⟩ (QRep.ofInt r)
        some ((QRep.ofInt l).add ((QRep.ofInt r).div divider))
    | _, _ => none
  else (i32FromStrRadix base num).map QRep.ofInt

/-- Modelled from the spec: the no-suffix path `val.parse::<f32>()`
uses "standard decimal parsing" — optional sign, decimal digits, an
optional fraction after one `.`. -/
def parseDecimalFloat (s : List Char) : Option QRep :=
  let (neg, rest) :=
    match s with
    | '-' :: r => (true, r)
    | '+' :: r => (false, r)
    | _ => (false, s)
  let ip := rest.takeWhile (· ≠ '.')
  let afterDot := (rest.dropWhile (· ≠ '.'))
  match afterDot with
  | [] =>
    (digitsVal 10 ip).bind fun v =>
      if ip.isEmpty then none
      else some ⟨(if neg then -1 else 1) * (v : Int), 1⟩
  | _ :: fp =>
    if ip.isEmpty && fp.isEmpty then none
    else if fp.contains '.' then none
    else
      (digitsVal 10 ip).bind fun v =>
      (digitsVal 10 fp).bind fun w =>
        some ⟨(if neg then -1 else 1) * ((v : Int) * 10 ^ fp.length + (w : Int)),
              (10 : Int) ^ fp.length⟩

/-! ## String literal interpretation (`escape_str`, `iterate_str`) -/

/-- `iterate_str` from `mod.rs` advances **two** characters per loop
iteration (`one = chars.next(); two = chars.next()` inside the loop),
so the callback sees disjoint pairs, not a sliding window. -/
def iterateStrPairs : List Char → List (Option Char × Option Char)
  | [] => []
  | [a] => [(some a, none)]
  | a :: b :: rest => (some a, some b) :: iterateStrPairs rest

/-- One callback invocation of `escape_str`. -/
def escapeStep (buf : List Char) (p : Option Char × Option Char) : List Char :=
  match p.1 with
  | some '\\' =>
    match p.2 with
    | some 'n' => buf ++ ['\n']
    | some 'r' => buf ++ ['\r']
    | some 't' => buf ++ ['\t']
    | some '\\' => buf ++ ['\\']
    | _ => buf
  | some ch => buf ++ [ch]
  | none => buf

/-- `escape_str` from `mod.rs`. -/
def escapeStr (src : List Char) : List Char :=
  (iterateStrPairs src).foldl escapeStep []

/-! ## The recursive-descent parser (`mod.rs`)

The mutually recursive grammar functions are written with the nested
expression parser abstracted as a parameter `pe` and tied together by a
single fuel-indexed `parseExpr`, so that every definition is structural
and computes inside the kernel.  Results are
`Option (Option Expr × PState)`: the outer `none` marks a panic or
non-termination of the Rust code (or exhausted fuel), the inner
`Option Expr` is the Rust `Option<Expr>` ("no expression"). -/

/-- `val.get(..val.find('.')?)?` applied when `val.contains('.')`: the
prefix before the first dot. -/
def truncAtDot (val : List Char) : List Char :=
  if val.contains '.' then val.takeWhile (· ≠ '.') else val

/-- The body of `Parser::parse_num` after the token fields are
extracted. -/
def parseNumBody (s : PState) (base : Option NumBase) (suffOff : Option Nat)
    (size index : Nat) : Option (Option Expr × PState) :=
  let start := if base.isSome then index + 2 else index
  let radix := match base with | some b => b.toRadix | none => 10
  let endV := match suffOff with | some off => index + off | none => index + size
  let suff : Option (List Char) :=
    match suffOff with
    | some off => sliceGet s.code (index + off) (index + size)
    | none => none
  match sliceGet s.code start endV with
  | none => some (none, s)
  | some val =>
    let baseV := match base with | none => 10 | some b => b.toRadix
    match suff with
    | some sf =>
      if sf = "i32".toList then
        match i32FromStrRadix radix (truncAtDot val) with
        | some v => some (some (.num (.i32 v)), s)
        | none => some (none, s)
      else if sf = "i64".toList then
        match i64FromStrRadix radix (truncAtDot val) with
        | some v => some (some (.num (.i64 v)), s)
        | none => some (none, s)
      else if sf = "u32".toList then
        match u32FromStrRadix radix (truncAtDot val) with
        | some v => some (some (.num (.u32 v)), s)
        | none => some (none, s)
      else if sf = "u64".toList then
        match u64FromStrRadix radix (truncAtDot val) with
        | some v => some (some (.num (.u64 v)), s)
        | none => some (none, s)
      else if sf = "f32".toList then
        match parseBasedF32 baseV val with
        | some q => some (some (.num (.f32 q)), s)
        | none => some (none, s)
      else if sf = "f64".toList then
        match parseBasedF64 baseV val with
        | some q => some (some (.num (.f64 q)), s)
        | none => some (none, s)
      else
        some (none, pushErrorF s (suffOff.getD 0) sf.length)
    | none =>
      if val.contains '.' then
        match parseDecimalFloat val with
        | some q => some (some (.num (.f32 q)), s)
        | none => some (none, s)
      else
        match i32FromStrRadix radix val with
        | some v => some (some (.num (.i32 v)), s)
        | none => some (none, s)

/-- `Parser::parse_num`.  `mod.rs` matches `LitKind::Num {base, suff_off}`;
the lexer under `src/` spells that literal kind as the `Int`/`Float`
pair, both carrying exactly the `base`/`suff_off` fields `parse_num`
uses, so they are dispatched uniformly. -/
def parseNumF (s : PState) : Option (Option Expr × PState) :=
  match lexNext s.lexer with
  | none => none
  | some (t?, lx) =>
    let s := { s with lexer := lx }
    match t? with
    | some ⟨.lit (.int base suffOff), size, index⟩ =>
        parseNumBody s base suffOff size index
    | some ⟨.lit (.float base suffOff), size, index⟩ =>
        parseNumBody s base suffOff size index
    | _ => some (none, s)

/-- `Parser::parse_str`. -/
def parseStrF (s : PState) : Option (Option Expr × PState) :=
  match lexNext s.lexer with
  | none => none
  | some (t?, lx) =>
    let s := { s with lexer := lx }
    match t? with
    | some t =>
      match sliceGet s.code (t.index + 1) (t.index + t.size - 1) with
      | some interior => some (some (.str (escapeStr interior)), s)
      | none => some (none, s)
    | none => some (none, s)

/-- `Parser::parse_bin_op`: reads the operator kind, consuming one token
for single-character operators and two for `==`/`<=`/`>=`/`**`; the
`Div` and `Percent` arms of the source return without consuming. -/
def parseBinOpF (s : PState) : Option (Option BinOpKind × PState) :=
  match skipWhitespaceP s with
  | none => none
  | some s =>
    match lexPeek s.lexer with
    | none => none
    | some (none, lx) => some (none, { s with lexer := lx })
    | some (some tok, lx) =>
      let s := { s with lexer := lx }
      match tok.kind with
      | .eq =>
        (pAdvance s).bind fun s =>
          match lexPeek s.lexer with
          | none => none
          | some (none, lx) => some (none, { s with lexer := lx })
          | some (some t2, lx) =>
            let s := { s with lexer := lx }
            match t2.kind with
            | .eq => (pAdvance s).map (fun s => (some .eq, s))
            | _ => some (some .assign, s)
      | .lt =>
        (pAdvance s).bind fun s =>
          match lexPeek s.lexer with
          | none => none
          | some (none, lx) => some (none, { s with lexer := lx })
          | some (some t2, lx) =>
            let s := { s with lexer := lx }
            match t2.kind with
            | .eq => (pAdvance s).map (fun s => (some .ltEq, s))
            | _ => some (some .lt, s)
      | .gt =>
        (pAdvance s).bind fun s =>
          match lexPeek s.lexer with
          | none => none
          | some (none, lx) => some (none, { s with lexer := lx })
          | some (some t2, lx) =>
            let s := { s with lexer := lx }
            match t2.kind with
            | .eq => (pAdvance s).map (fun s => (some .gtEq, s))
            | _ => some (some .gt, s)
      | .add => (pAdvance s).map (fun s => (some .add, s))
      | .sub => (pAdvance s).map (fun s => (some .sub, s))
      | .mul =>
        (pAdvance s).bind fun s =>
          match lexPeek s.lexer with
          | none => none
          | some (none, lx) => some (none, { s with lexer := lx })
          | some (some t2, lx) =>
            let s := { s with lexer := lx }
            match t2.kind with
            | .mul => (pAdvance s).map (fun s => (some .pow, s))
            | _ => some (some .mul, s)
      | .div => some (some .div, s)
      | .percent => some (some .mod, s)
      | _ => some (none, s)

/-- `Parser::maybe_binary`: read an operator, recursively parse the rest
as the right-hand side, and apply the single-level rotation when the
right-hand side is a `BinOp` whose top operator has precedence at most
the just-consumed operator's. -/
def maybeBinaryF (pe : PState → Option (Option Expr × PState)) (left : Expr)
    (s : PState) : Option (Expr × PState) :=
  match skipWhitespaceP s with
  | none => none
  | some s =>
    if lexEof s.lexer then some (left, s)
    else
      match lexPeek s.lexer with
      | none => none
      | some (none, _) => none
      | some (some _, lx) =>
        let s := { s with lexer := lx }
        match parseBinOpF s with
        | none => none
        | some (none, s) => some (left, s)
        | some (some kind, s) =>
          match pe s with
          | none => none
          | some (none, s) => some (left, s)
          | some (some right, s) =>
            match right with
            | .binOp rKind rLeft rRight =>
              if BinOpKind.prec rKind ≤ BinOpKind.prec kind then
                some (.binOp rKind (.binOp kind left rLeft) rRight, s)
              else
                some (.binOp kind left (.binOp rKind rLeft rRight), s)
            | _ => some (.binOp kind left right, s)

/-- The loop of `Parser::parse_tuple`. -/
def parseTupleLoopF (pe : PState → Option (Option Expr × PState)) :
    Nat → List Expr → PState → Option (Option (List Expr) × PState)
  | 0, _, _ => none
  | n + 1, acc, s =>
    if hasStrP s ")".toList then some (some acc, s)
    else
      match pe s with
      | none => none
      | some (none, s) => some (none, s)
      | some (some e, s) =>
        let acc := acc ++ [e]
        if hasStrP s ",".toList then
          match pAdvance s with
          | none => none
          | some s => parseTupleLoopF pe n acc s
        else parseTupleLoopF pe n acc s

/-- `Parser::parse_tuple`. -/
def parseTupleF (pe : PState → Option (Option Expr × PState)) (n : Nat)
    (s : PState) : Option (Option Expr × PState) :=
  match lexEatWs s.lexer with
  | none => none
  | some lx =>
    let s := { s with lexer := lx }
    if hasStrP s "(".toList then
      match pAdvance s with
      | none => none
      | some s =>
        match parseTupleLoopF pe n [] s with
        | none => none
        | some (none, s) => some (none, s)
        | some (some list, s) =>
          match lexEatWs s.lexer with
          | none => none
          | some lx =>
            let s := { s with lexer := lx }
            match pAdvance s with
            | none => none
            | some s => some (some (.list list), s)
    else some (none, s)

/-- `Parser::maybe_call` (takes the tuple parser as its parameter). -/
def maybeCallF (pt : PState → Option (Option Expr × PState)) (left : Expr)
    (s : PState) : Option (Expr × PState) :=
  if hasStrP s "(".toList then
    match pt s with
    | none => none
    | some (some (.list l), s) => some (.call left l, s)
    | some (some _, s) => some (left, s)
    | some (none, s) => some (left, s)
  else some (left, s)

/-- The loop of `Parser::parse_block`.  A failing `parse_expr` inside the
loop propagates "no expression" out of `parse_block` via `?`; note that
no path pops the scope pushed by `parse_block`. -/
def parseBlockLoopF (pe : PState → Option (Option Expr × PState)) :
    Nat → List Expr → PState → Option (Option (List Expr) × PState)
  | 0, _, _ => none
  | n + 1, acc, s =>
    if hasStrP s "\x7d".toList then some (some acc, s)
    else
      match pe s with
      | none => none
      | some (none, s) => some (none, s)
      | some (some e, s) =>
        let acc := acc ++ [e]
        let s? := if hasStrP s ";".toList then pAdvance s else some s
        match s? with
        | none => none
        | some s =>
          match skipWhitespaceP s with
          | none => none
          | some s =>
            if lexGetStr s.code s.lexer 1 == some "\x7d".toList then
              match pAdvance s with
              | none => none
              | some s => some (some acc, s)
            else parseBlockLoopF pe n acc s

/-- `Parser::parse_block`: pushes a child of the current top scope (the
`last().unwrap()` panics on an empty stack), consumes the `{`, runs the
loop, and wraps the collected expressions in a `CodeBlock`; the pushed
scope is never popped. -/
def parseBlockF (pe : PState → Option (Option Expr × PState)) (n : Nat)
    (s : PState) : Option (Option Expr × PState) :=
  if !(hasStrP s "\x7b".toList) then some (none, s)
  else
    match s.scopeStack.head? with
    | none => none
    | some top =>
      let s := { s with scopeStack := Scope.child top :: s.scopeStack }
      match pAdvance s with
      | none => none
      | some s =>
        match parseBlockLoopF pe n [] s with
        | none => none
        | some (none, s) => some (none, s)
        | some (some buff, s) => some (some (.codeBlock buff), s)

/-- `Parser::parse_sym` (self-recursive along `:`-separated chains). -/
def parseSymF : Nat → PState → Option (Option Expr × PState)
  | 0, _ => none
  | n + 1, s =>
    match lexPeek s.lexer with
    | none => none
    | some (none, lx) => some (none, { s with lexer := lx })
    | some (some tok, lx) =>
      let s := { s with lexer := lx }
      match tok.kind with
      | .ident =>
        match getTokVal s.code tok with
        | none => some (none, s)
        | some name =>
          let sym := Expr.symbol (.unkown name 0 0)
          match pAdvance s with
          | none => none
          | some s =>
            match lexEatWs s.lexer with
            | none => none
            | some lx =>
              let s := { s with lexer := lx }
              match lexPeek s.lexer with
              | none => none
              | some (none, lx) => some (some sym, { s with lexer := lx })
              | some (some t2, lx) =>
                let s := { s with lexer := lx }
                match t2.kind with
                | .colon =>
                  match pAdvance s with
                  | none => none
                  | some s =>
                    match parseSymF n s with
                    | none => none
                    | some (some right, s) => some (some (.nsAccess sym right), s)
                    | some (none, s) => some (some sym, s)
                | _ => some (some sym, s)
      | _ => some (none, s)

/-- `Parser::parse_if`. -/
def parseIfF (pe : PState → Option (Option Expr × PState)) (s : PState) :
    Option (Option Expr × PState) :=
  match pAdvance s with
  | none => none
  | some s =>
    match pe s with
    | none => none
    | some (none, s) => some (none, s)
    | some (some cond, s) =>
      match pe s with
      | none => none
      | some (none, s) => some (none, s)
      | some (some thenB, s) =>
        match skipWhitespaceP s with
        | none => none
        | some s =>
          if hasStrP s "else".toList then
            match pAdvance s with
            | none => none
            | some s =>
              match pe s with
              | none => none
              | some (eb, s) => some (some (.ifE cond thenB eb), s)
          else some (some (.ifE cond thenB none), s)

/-- The tail of `Parser::parse_let` after the name is settled (the
`dbg!(self.lexer.peek())` of the source is a peek whose value is only
printed). -/
def parseLetTail (pe : PState → Option (Option Expr × PState))
    (name : List Char) (isMut : Bool) (s : PState) :
    Option (Option Expr × PState) :=
  match skipWhitespaceP s with
  | none => none
  | some s =>
    match lexPeek s.lexer with
    | none => none
    | some (_, lx) =>
      let s := { s with lexer := lx }
      if hasTypeP s .eq then
        match pAdvance s with
        | none => none
        | some s =>
          match skipWhitespaceP s with
          | none => none
          | some s =>
            match pe s with
            | none => none
            | some (none, s) => some (none, s)
            | some (some init, s) =>
                some (some (.varDef name isMut (some init)), s)
      else some (some (.varDef name isMut none), s)

/-- `Parser::parse_let`: consumes `let`, an optional `mut`, then either
an identifier name or — when none is present — the name `"mut"` with
`is_mut` reset to false, then an optional `= expr` initialiser. -/
def parseLetF (pe : PState → Option (Option Expr × PState)) (s : PState) :
    Option (Option Expr × PState) :=
  if !(hasStrP s "let".toList) then some (none, s)
  else
    match pAdvance s with
    | none => none
    | some s =>
      match skipWhitespaceP s with
      | none => none
      | some s =>
        let step : Option (Bool × PState) :=
          if hasStrP s "mut".toList then (pAdvance s).map (fun s => (true, s))
          else some (false, s)
        match step with
        | none => none
        | some (isMut1, s) =>
          match skipWhitespaceP s with
          | none => none
          | some s =>
            if hasTypeP s .ident then
              match lexGetTok s.code s.lexer with
              | none => none
              | some (none, lx) => some (none, { s with lexer := lx })
              | some (some nm, lx) =>
                let s := { s with lexer := lx }
                match pAdvance s with
                | none => none
                | some s => parseLetTail pe nm isMut1 s
            else parseLetTail pe "mut".toList false s

/-- `Parser::parse_fn` (a stub in the source: it never consumes the
name token and parses no parameters or body). -/
def parseFnF (s : PState) : Option (Option Expr × PState) :=
  match lexPeek s.lexer with
  | none => none
  | some (none, lx) => some (none, { s with lexer := lx })
  | some (some tok, lx) =>
    let s := { s with lexer := lx }
    match getTokVal s.code tok with
    | none => some (none, s)
    | some txt =>
      let s? := if txt = "fn".toList then pAdvance s else some s
      match s? with
      | none => none
      | some s =>
        match lexPeek s.lexer with
        | none => none
        | some (none, lx) => some (none, { s with lexer := lx })
        | some (some t2, lx) =>
          let s := { s with lexer := lx }
          if t2.kind == .ident then
            match getTokVal s.code t2 with
            | none => some (none, s)
            | some nm => some (some (.fn nm [] .null), s)
          else some (some (.fn "<anonymous>".toList [] .null), s)

/-- `Parser::parse_ident`: dispatch on the text of the (unconsumed)
lookahead identifier; the `"null"` arm of the source returns
`Expr::Null` without consuming the token. -/
def parseIdentF (pe : PState → Option (Option Expr × PState)) (n : Nat)
    (s : PState) : Option (Option Expr × PState) :=
  match lexGetTok s.code s.lexer with
  | none => none
  | some (none, lx) => some (none, { s with lexer := lx })
  | some (some txt, lx) =>
    let s := { s with lexer := lx }
    if txt = "if".toList then parseIfF pe s
    else if txt = "let".toList then parseLetF pe s
    else if txt = "fn".toList then parseFnF s
    else if txt = "null".toList then some (some .null, s)
    else parseSymF n s

/-- `Parser::parse_atom`: skip a whitespace token, then dispatch on the
lookahead's kind; every kind outside literal / `(` / `{` / identifier
pushes an `UnexpectedToken` error carrying the token's index and size
and produces no expression. -/
def parseAtomF (pe : PState → Option (Option Expr × PState)) (n : Nat)
    (s : PState) : Option (Option Expr × PState) :=
  match skipWhitespaceP s with
  | none => none
  | some s =>
    match lexPeek s.lexer with
    | none => none
    | some (none, lx) => some (none, { s with lexer := lx })
    | some (some tok, lx) =>
      let s := { s with lexer := lx }
      match tok.kind with
      | .lit (.int _ _) => parseNumF s
      | .lit (.float _ _) => parseNumF s
      | .lit .str => parseStrF s
      | .openDelim .paren => parseTupleF pe n s
      | .openDelim .brace => parseBlockF pe n s
      | .ident => parseIdentF pe n s
      | _ => some (none, pushErrorF s tok.index tok.size)

/-- `Parser::parse_expr`, tying the recursion together over fuel. -/
def parseExpr : Nat → PState → Option (Option Expr × PState)
  | 0, _ => none
  | n + 1, s =>
    match parseAtomF (parseExpr n) n s with
    | none => none
    | some (none, s) => some (none, s)
    | some (some e, s) =>
      match maybeCallF (parseTupleF (parseExpr n) n) e s with
      | none => none
      | some (e, s) =>
        match maybeBinaryF (parseExpr n) e s with
        | none => none
        | some (e, s) => some (some e, s)

/-- The loop of `Parser::parse_top`: parse expressions (each followed by
an optional `;`) until end of input or until one fails, in which case
consumption stops with the remaining tokens untouched. -/
def parseTopLoopF (pe : PState → Option (Option Expr × PState)) :
    Nat → List Expr → PState → Option (List Expr × PState)
  | 0, _, _ => none
  | n + 1, acc, s =>
    if lexEof s.lexer then some (acc, s)
    else
      match pe s with
      | none => none
      | some (none, s) => some (acc, s)
      | some (some e, s) =>
        let acc := acc ++ [e]
        let s? := if hasStrP s ";".toList then pAdvance s else some s
        match s? with
        | none => none
        | some s => parseTopLoopF pe n acc s

/-- `Parser::parse_top`: pushes the `"global"` scope once, runs the
loop, and returns the single expression itself when exactly one was
collected, otherwise a `CodeBlock` of all of them. -/
def parseTop (fuel : Nat) (s : PState) : Option (Option Expr × PState) :=
  let s := { s with scopeStack := Scope.namedS "global".toList :: s.scopeStack }
  match parseTopLoopF (parseExpr fuel) fuel [] s with
  | none => none
  | some (acc, s) =>
    if acc.length = 1 then some (acc.getLast?, s)
    else some (some (.codeBlock acc), s)

/-- `Parser::new` followed by nothing: the initial parser state. -/
def initState (code : List Char) : Option PState :=
  (Lexer.mkNew code).map (fun l => ⟨code, l, [], []⟩)

/-- Run the whole pipeline on a source string. -/
def runParser (fuel : Nat) (src : String) : Option (Option Expr × PState) :=
  (initState src.toList).bind (parseTop fuel)

/-- The program expression produced for a source. -/
def resultExpr (fuel : Nat) (src : String) : Option (Option Expr) :=
  (runParser fuel src).map Prod.fst

/-- The accumulated error list for a source. -/
def resultErrors (fuel : Nat) (src : String) : Option (List Error) :=
  (runParser fuel src).map (fun r => r.2.errors)

/-- The scope-stack depth left after parsing a source. -/
def resultScopeDepth (fuel : Nat) (src : String) : Option Nat :=
  (runParser fuel src).map (fun r => r.2.scopeStack.length)

/-! ## Claims -/

/-- C1: `"1+2*3"` parses as `Add(1, Mul(2,3))`, `"1*2+3*4"` as
`Add(Mul(1,2), Mul(3,4))`, and `"1-2-3"` left-associatively as
`Sub(Sub(1,2),3)`. -/
theorem c1_precedence_examples :
    resultExpr 64 "1+2*3" =
      some (some (.binOp .add (.num (.i32 1))
        (.binOp .mul (.num (.i32 2)) (.num (.i32 3))))) ∧
    resultExpr 64 "1*2+3*4" =
      some (some (.binOp .add
        (.binOp .mul (.num (.i32 1)) (.num (.i32 2)))
        (.binOp .mul (.num (.i32 3)) (.num (.i32 4))))) ∧
    resultExpr 64 "1-2-3" =
      some (some (.binOp .sub
        (.binOp .sub (.num (.i32 1)) (.num (.i32 2)))
        (.num (.i32 3)))) :=
  ⟨rfl, rfl, rfl⟩

/-- C2 counterexample: the chain `"1-2-3-4"` of three same-precedence
operators does **not** parse fully left-associated — the parser yields
`Sub(Sub(1, Sub(2,3)), 4)`, whose inner `Sub(1, Sub(2,3))` node has an
equal-precedence `BinOp` as its right child, violating the claimed
invariant. -/
theorem c2_counterexample :
    resultExpr 64 "1-2-3-4" =
      some (some (.binOp .sub
        (.binOp .sub (.num (.i32 1))
          (.binOp .sub (.num (.i32 2)) (.num (.i32 3))))
        (.num (.i32 4)))) ∧
    resultExpr 64 "1-2-3-4" ≠
      some (some (.binOp .sub
        (.binOp .sub
          (.binOp .sub (.num (.i32 1)) (.num (.i32 2)))
          (.num (.i32 3)))
        (.num (.i32 4)))) := by
  refine ⟨rfl, fun h => ?_⟩
  rw [show resultExpr 64 "1-2-3-4" =
      some (some (.binOp .sub
        (.binOp .sub (.num (.i32 1))
          (.binOp .sub (.num (.i32 2)) (.num (.i32 3))))
        (.num (.i32 4)))) from rfl] at h
  simp at h

/-- C4 evaluation at the failing input: the double-quoted source
`"a\nb"` decodes to the two-character payload `an`, not to
`a`, newline, `b` — `iterate_str` advances two characters per
iteration, so `escape_str` drops every second character of unescaped
text. -/
theorem c4_escape_pairwise_loss :
    resultExpr 64 "\"a\\nb\"" = some (some (.str ['a', 'n'])) ∧
    escapeStr ['a', 'b'] = ['a'] :=
  ⟨rfl, rfl⟩

/-- C5: `"42"` → i32 42; `"0b101"` → 5; `"0o17"` → 15; `"0xFF"` → 255;
`"10u64"` → u64 10; `"3.5f32"` → f32 3.5. -/
theorem c5_numeric_literals :
    resultExpr 64 "42" = some (some (.num (.i32 42))) ∧
    resultExpr 64 "0b101" = some (some (.num (.i32 5))) ∧
    resultExpr 64 "0o17" = some (some (.num (.i32 15))) ∧
    resultExpr 64 "0xFF" = some (some (.num (.i32 255))) ∧
    resultExpr 64 "10u64" = some (some (.num (.u64 10))) ∧
    resultExpr 64 "3.5f32" = some (some (.num (.f32 ⟨35, 10⟩))) ∧
    QRep.toRat ⟨35, 10⟩ = 7 / 2 :=
  ⟨rfl, rfl, rfl, rfl, rfl, rfl, by norm_num [QRep.toRat]⟩

/-- C6 counterexample: for the literal `"3.1f64"` the fractional part is
`1`, and the smallest power of ten *exceeding* 1 is 10, so the claim
demands the value `3 + 1/10`; the code's loop (`while divider < right`)
stops at divider 1 and produces `3 + 1/1 = 4`. -/
theorem c6_counterexample :
    resultExpr 64 "3.1f64" = some (some (.num (.f64 ⟨4, 1⟩))) ∧
    QRep.toRat ⟨4, 1⟩ ≠ 3 + 1 / 10 :=
  ⟨rfl, by norm_num [QRep.toRat]⟩

/-- C7 evaluation at the failing input: parsing `"{ let x = 1; x }"`
does produce a `CodeBlock` with the two expressions in source order,
but the child scope pushed by `parse_block` is never popped: the final
scope stack holds the global scope *plus* the un-popped child (depth 2,
where the claim demands the pre-block depth 1). -/
theorem c7_block_scope_not_popped :
    resultExpr 64 "\x7b let x = 1; x \x7d" =
      some (some (.codeBlock
        [.varDef ['x'] false (some (.num (.i32 1))),
         .symbol (.unkown ['x'] 0 0)])) ∧
    resultScopeDepth 64 "\x7b let x = 1; x \x7d" = some 2 ∧
    resultScopeDepth 64 "\x7b let x = 1; x \x7d" ≠ some 1 := by
  refine ⟨rfl, rfl, fun h => ?_⟩
  rw [show resultScopeDepth 64 "\x7b let x = 1; x \x7d" = some 2 from rfl] at h
  simp at h

/-- C9 evaluation at the failing input: `"a"` (double quotes) lexes as a
single `Str` token of size 3 covering both quotes, but the single-quoted
source `'a'` lexes as a `Str` token of size 1 — just the opening
quote — because `read_single_quoted_string` passes skip 0 where the
double-quoted reader passes skip 2; the `a` becomes a separate
identifier token and reading the third token never terminates. -/
theorem c9_quote_lexing_asymmetry :
    lexList 9 "\"a\"".toList = [⟨.lit .str, 3, 0⟩] ∧
    lexList 9 [sqChar, 'a', sqChar] = [⟨.lit .str, 1, 0⟩] :=
  ⟨rfl, rfl⟩

/-- C3 counterexample: lexing the one-character source `"` (an
unterminated string) emits a token with index 0 and size 3 — the final
skip of `read_double_quoted_string` advances the cursor twice past the
end of input — so `index + size` exceeds the source length 1. -/
theorem c3_counterexample :
    lexList 9 "\"".toList = [⟨.lit .str, 3, 0⟩] ∧
    ¬ ((0 : Nat) + 3 ≤ ("\"".toList).length) :=
  ⟨rfl, by decide⟩

/-- `true` exactly for the token kinds on which `parse_atom` can start
an expression (literal, `(`, `{`, identifier). -/
def atomStarts : TokenKind → Bool
  | .lit _ => true
  | .openDelim .paren => true
  | .openDelim .brace => true
  | .ident => true
  | _ => false

/-- The parser state reached after `Parser::new(")")` with the global
scope pushed (used to witness the general parts of C8). -/
def c8State : PState :=
  ⟨[')'], ⟨⟨0, 1, []⟩, some ⟨.closeDelim .paren, 1, 0⟩⟩, [],
   [Scope.namedS "global".toList]⟩

/-- C8: parsing the lone `")"` yields one `UnexpectedToken` error at
offset 0 with length 1 and the empty program `CodeBlock`; in general an
atom step whose (non-whitespace) lookahead token starts no atom pushes
an `UnexpectedToken` error carrying that token's index and size and
returns no expression, and the top-level loop stops consuming at the
first failing expression, leaving the state as the failure left it. -/
theorem c8_unexpected_token :
    (resultExpr 9 ")" = some (some (.codeBlock [])) ∧
     resultErrors 9 ")" = some [⟨.unexpectedToken, 0, 1⟩]) ∧
    (∀ (n : Nat) (s : PState) (tok : Token),
       s.lexer.curTok = some tok →
       atomStarts tok.kind = false →
       tok.kind ≠ .whitespace →
       parseAtomF (parseExpr n) n s =
         some (none, pushErrorF s tok.index tok.size)) ∧
    (∀ (n : Nat) (pe : PState → Option (Option Expr × PState))
       (acc : List Expr) (s s' : PState),
       lexEof s.lexer = false →
       pe s = some (none, s') →
       parseTopLoopF pe (n + 1) acc s = some (acc, s')) := by
  refine ⟨⟨rfl, rfl⟩, ?_, ?_⟩
  · intro n s tok hcur hstart hws
    have hbeq : (tok.kind == TokenKind.whitespace) = false := by
      simp [hws]
    have hpeek : lexPeek s.lexer = some (some tok, s.lexer) := by
      simp [lexPeek, hcur]
    have hskip : skipWhitespaceP s = some s := by
      simp [skipWhitespaceP, hpeek, hbeq]
    rw [parseAtomF, hskip]
    simp only [hpeek]
    cases tok with
    | mk kind size index =>
      cases kind <;> try simp_all [atomStarts]
      rename_i dk
      cases dk <;> simp_all [atomStarts]
  · intro n pe acc s s' heof hpe
    rw [parseTopLoopF, heof]
    simp only [Bool.false_eq_true, if_false, hpe]

/-- Witness for the general parts of C8 at the `")"` state. -/
theorem c8_unexpected_token_witness :
    parseAtomF (parseExpr 3) 3 c8State = some (none, pushErrorF c8State 0 1) ∧
    parseTopLoopF (parseExpr 5) 1 [] c8State =
      some ([], pushErrorF c8State 0 1) :=
  ⟨c8_unexpected_token.2.1 3 c8State ⟨.closeDelim .paren, 1, 0⟩ rfl rfl
     (by decide),
   c8_unexpected_token.2.2 0 (parseExpr 5) [] c8State (pushErrorF c8State 0 1)
     rfl rfl⟩

/-- A parser state whose lookahead is the block-comment token of
`"/*c*/1"` (used to witness the general part of C10). -/
def c10State : PState :=
  ⟨"/*c*/1".toList, ⟨⟨0, 5, ['1']⟩, some ⟨.blockComment, 5, 0⟩⟩, [],
   [Scope.namedS "global".toList]⟩

/-- C10: `parse_atom` skips only whitespace tokens — a line or block
comment in atom position is reported as an `UnexpectedToken` at the
comment's span and produces no expression, even when the tokens after
the comment (here the literal `1`, which parses fine on its own) would
form a valid expression. -/
theorem c10_comment_not_skipped :
    (∀ (n : Nat) (s : PState) (tok : Token),
       s.lexer.curTok = some tok →
       (tok.kind = .lineComment ∨ tok.kind = .blockComment) →
       parseAtomF (parseExpr n) n s =
         some (none, pushErrorF s tok.index tok.size)) ∧
    resultExpr 9 "/*c*/1" = some (some (.codeBlock [])) ∧
    resultErrors 9 "/*c*/1" = some [⟨.unexpectedToken, 0, 5⟩] ∧
    resultExpr 9 "1" = some (some (.num (.i32 1))) := by
  refine ⟨?_, rfl, rfl, rfl⟩
  intro n s tok hcur hkind
  have hws : tok.kind ≠ .whitespace := by
    rcases hkind with h | h <;> simp [h]
  have hbeq : (tok.kind == TokenKind.whitespace) = false := by
    simp [hws]
  have hpeek : lexPeek s.lexer = some (some tok, s.lexer) := by
    simp [lexPeek, hcur]
  have hskip : skipWhitespaceP s = some s := by
    simp [skipWhitespaceP, hpeek, hbeq]
  rw [parseAtomF, hskip]
  simp only [hpeek]
  cases tok with
  | mk kind size index => rcases hkind with h | h <;> simp_all

/-- Witness for the general part of C10 at the `"/*c*/1"` state. -/
theorem c10_comment_not_skipped_witness :
    parseAtomF (parseExpr 3) 3 c10State = some (none, pushErrorF c10State 0 5) :=
  c10_comment_not_skipped.1 3 c10State ⟨.blockComment, 5, 0⟩ rfl (Or.inr rfl)

/-- The four binary operators exercised by the two-operator grouping
theorem (one from each arithmetic precedence level that `parse_bin_op`
consumes). -/
def c2op : Fin 4 → BinOpKind
  | 0 => .add
  | 1 => .sub
  | 2 => .mul
  | 3 => .pow

/-- Surface syntax of the four operators. -/
def c2opStr : Fin 4 → String
  | 0 => "+"
  | 1 => "-"
  | 2 => "*"
  | 3 => "**"

/-- The source text `1 o1 2 o2 3` (without spaces). -/
def c2src (i j : Fin 4) : String :=
  "1" ++ c2opStr i ++ "2" ++ c2opStr j ++ "3"

/-- Correct grouping for a two-operator chain: left-associated when the
first operator's precedence is at least the second's, right-nested
otherwise. -/
def c2expected (i j : Fin 4) : Expr :=
  if BinOpKind.prec (c2op j) ≤ BinOpKind.prec (c2op i) then
    .binOp (c2op j)
      (.binOp (c2op i) (.num (.i32 1)) (.num (.i32 2))) (.num (.i32 3))
  else
    .binOp (c2op i) (.num (.i32 1))
      (.binOp (c2op j) (.num (.i32 2)) (.num (.i32 3)))

/-- C2 amended: the grouping invariant holds for chains of (at most)
two binary operators — for every pair among `+ - * **`, the source
`1 o1 2 o2 3` parses left-associated when `prec o1 ≥ prec o2` and
right-nested otherwise.  For chains of three or more same-precedence
operators the invariant fails (see the counterexample `1-2-3-4`),
because the rotation of `maybe_binary` is applied once per call and
does not recurse into the rotated subtree. -/
theorem c2_two_operator_grouping :
    ∀ i j : Fin 4, resultExpr 64 (c2src i j) = some (some (c2expected i j)) := by
  intro i j
  fin_cases i <;> fin_cases j <;> rfl

/-- Values accepted by `i32::from_str_radix` lie below `2^31`. -/
theorem i32FromStrRadix_le (radix : Nat) (s : List Char) (v : Int)
    (h : i32FromStrRadix radix s = some v) : v ≤ 2 ^ 31 - 1 := by
  unfold i32FromStrRadix at h
  cases hc : fromStrRadixCore true radix s with
  | none => rw [hc] at h; simp at h
  | some w =>
    rw [hc] at h
    simp only [Option.some_bind] at h
    split at h
    · next hcond =>
        obtain rfl : w = v := by injection h
        exact (Bool.and_eq_true _ _ |>.mp hcond).2 |> decide_eq_true_eq.mp
    · exact absurd h (by simp)

/-- The `while divider < right` loop started at `10^i` returns the
smallest power of ten `≥ r` that is `≥ 10^i`, given enough fuel. -/
theorem divLoop_spec :
    ∀ (f i : Nat) (r : Int), r ≤ 10 ^ (i + f) →
    ∃ k : Nat, divLoop f ⟨10 ^ i, 1⟩ ⟨r, 1⟩ = ⟨10 ^ k, 1⟩ ∧ i ≤ k ∧
      r ≤ 10 ^ k ∧ ∀ j : Nat, i ≤ j → r ≤ 10 ^ j → k ≤ j := by
  intro f
  induction f with
  | zero =>
    intro i r h
    exact ⟨i, rfl, le_refl _, by simpa using h, fun j hij _ => hij⟩
  | succ f ih =>
    intro i r h
    rw [divLoop]
    by_cases hlt : (10 : Int) ^ i < r
    · have hcond : (QRep.ltB ⟨10 ^ i, 1⟩ ⟨r, 1⟩) = true := by
        simp [QRep.ltB, hlt]
      have hmul : QRep.mul ⟨10 ^ i, 1⟩ ⟨10, 1⟩ = ⟨10 ^ (i + 1), 1⟩ := by
        simp [QRep.mul, pow_succ]
      rw [hcond, if_pos rfl, hmul]
      have h' : r ≤ 10 ^ ((i + 1) + f) := by
        rw [show (i + 1) + f = i + (f + 1) by omega]; exact h
      obtain ⟨k, hk, hik, hrk, hmin⟩ := ih (i + 1) r h'
      refine ⟨k, hk, le_trans (Nat.le_succ i) hik, hrk, fun j hij hrj => ?_⟩
      rcases Nat.lt_or_ge i j with hij' | hij'
      · exact hmin j hij' hrj
      · have hji : j = i := le_antisymm hij' hij
        rw [hji] at hrj
        exact absurd hrj (not_le.mpr hlt)
    · have hcond : (QRep.ltB ⟨10 ^ i, 1⟩ ⟨r, 1⟩) = false := by
        simp [QRep.ltB, hlt]
      rw [hcond]
      simp only [Bool.false_eq_true, if_false]
      exact ⟨i, rfl, le_refl _, not_lt.mp hlt, fun j hij _ => hij⟩

/-- C6 amended: for a fractional literal parsed by the based-float
routine, the value is the left part plus the right part divided by the
smallest power of ten **greater than or equal to** the right part (the
claim's "exceeding" fails when the right part is itself a power of
ten — see the counterexample `3.1f64`). -/
theorem c6_based_float_value (base : Nat) (s : List Char) (l r : Int)
    (hdot : s.contains '.' = true)
    (hl : i32FromStrRadix base (splitDotLeft s) = some l)
    (hr : i32FromStrRadix base (splitDotRight s) = some r) :
    ∃ (k : Nat) (q : QRep), parseBasedF64 base s = some q ∧
      q.toRat = (l : ℚ) + (r : ℚ) / 10 ^ k ∧
      (r : ℚ) ≤ 10 ^ k ∧ ∀ j : Nat, (r : ℚ) ≤ 10 ^ j → k ≤ j := by
  have hbound : r ≤ 10 ^ (0 + 40) :=
    le_trans (i32FromStrRadix_le _ _ _ hr) (by norm_num)
  obtain ⟨k, hk, _, hrk, hmin⟩ := divLoop_spec 40 0 r hbound
  rw [pow_zero] at hk
  have hrun : parseBasedF64 base s =
      some ((QRep.ofInt l).add
        ((QRep.ofInt r).div (divLoop 40 ⟨1, 1⟩ (QRep.ofInt r)))) := by
    simp only [parseBasedF64, hdot, if_true, hl, hr]
  have hq : (QRep.add ⟨l, 1⟩ (QRep.div ⟨r, 1⟩ ⟨10 ^ k, 1⟩)) =
      ⟨l * 10 ^ k + r, 10 ^ k⟩ := by
    simp [QRep.add, QRep.div]
  refine ⟨k, ⟨l * 10 ^ k + r, 10 ^ k⟩, ?_, ?_, ?_, ?_⟩
  · rw [hrun]
    simp only [QRep.ofInt]
    rw [hk, hq]
  · have hk0 : ((10 : ℚ)) ^ k ≠ 0 := by positivity
    simp only [QRep.toRat]
    push_cast
    field_simp
  · exact_mod_cast hrk
  · intro j hj
    exact hmin j (Nat.zero_le j) (by exact_mod_cast hj)

/-- Witness for C6 amended at the literal text `3.25` in radix 10. -/
theorem c6_based_float_value_witness :
    ∃ (k : Nat) (q : QRep), parseBasedF64 10 "3.25".toList = some q ∧
      q.toRat = ((3 : Int) : ℚ) + ((25 : Int) : ℚ) / 10 ^ k ∧
      ((25 : Int) : ℚ) ≤ 10 ^ k ∧
      ∀ j : Nat, ((25 : Int) : ℚ) ≤ 10 ^ j → k ≤ j :=
  c6_based_float_value 10 "3.25".toList 3 25 rfl rfl rfl

/-! ## Span contiguity of the lexer (for C3) -/

/-- `c'` is `c` after some number of `next` steps: both counters grew by
the same amount. -/
def CurAdv (c c' : Cursor) : Prop :=
  ∃ d, c'.len = c.len + d ∧ c'.index = c.index + d

theorem curAdv_rfl (c : Cursor) : CurAdv c c := ⟨0, rfl, rfl⟩

theorem curAdv_adv (c : Cursor) : CurAdv c c.adv := ⟨1, rfl, rfl⟩

theorem curAdv_trans {a b c : Cursor} (h1 : CurAdv a b) (h2 : CurAdv b c) :
    CurAdv a c := by
  obtain ⟨d1, hl1, hi1⟩ := h1
  obtain ⟨d2, hl2, hi2⟩ := h2
  exact ⟨d1 + d2, by omega, by omega⟩

theorem skipN_adv (k : Nat) (c : Cursor) : CurAdv c (Cursor.skipN k c) := by
  induction k generalizing c with
  | zero => exact curAdv_rfl c
  | succ k ih => exact curAdv_trans (curAdv_adv c) (ih c.adv)

theorem eatWhileAux_adv (p : Option Char → Option Char → Bool) (o : Bool)
    (skip : Nat) :
    ∀ (buf : List Char) (len index : Nat) (c' : Cursor),
    eatWhileAux p o skip buf len index = some c' →
    CurAdv ⟨len, index, buf⟩ c' := by
  intro buf
  induction buf with
  | nil =>
    intro len index c' h
    simp only [eatWhileAux] at h
    split at h
    · exact absurd h (by simp)
    · obtain rfl := Option.some.inj h
      exact skipN_adv skip _
  | cons ch rest ih =>
    intro len index c' h
    simp only [eatWhileAux] at h
    split at h
    · exact curAdv_trans ⟨1, rfl, rfl⟩ (ih (len + 1) (index + 1) c' h)
    · obtain rfl := Option.some.inj h
      exact skipN_adv skip _

theorem eatWhile_adv (p : Option Char → Option Char → Bool) (o : Bool)
    (skip : Nat) (c c' : Cursor) (h : eatWhile p o skip c = some c') :
    CurAdv c c' :=
  eatWhileAux_adv p o skip c.buf c.len c.index c' h

theorem eatLineCommentAux_adv (o : Bool) :
    ∀ (buf : List Char) (len index : Nat) (c' : Cursor),
    eatLineCommentAux o buf len index = some c' →
    CurAdv ⟨len, index, buf⟩ c' := by
  intro buf
  induction buf with
  | nil =>
    intro len index c' h
    simp only [eatLineCommentAux] at h
    split at h
    · exact absurd h (by simp)
    · obtain rfl := Option.some.inj h
      exact skipN_adv 1 _
  | cons ch rest ih =>
    intro len index c' h
    by_cases hch : ch = '\n'
    · subst hch
      simp only [eatLineCommentAux] at h
      split at h
      · obtain rfl := Option.some.inj h
        exact curAdv_trans ⟨1, rfl, rfl⟩ (skipN_adv 1 _)
      · obtain rfl := Option.some.inj h
        exact skipN_adv 1 _
    · simp only [eatLineCommentAux, hch] at h
      exact curAdv_trans ⟨1, rfl, rfl⟩ (ih _ _ _ h)

theorem eatLineComment_adv (o : Bool) (c c' : Cursor)
    (h : eatLineComment o c = some c') : CurAdv c c' :=
  eatLineCommentAux_adv o c.buf c.len c.index c' h

theorem eatNumSuffix_adv (o : Bool) (c c' : Cursor)
    (h : eatNumSuffix o c = some c') : CurAdv c c' := by
  rw [eatNumSuffix.eq_def] at h
  split at h
  all_goals try (obtain rfl := Option.some.inj h; exact curAdv_rfl c)
  all_goals
    split at h
    · split_ifs at h
      · exact curAdv_trans (curAdv_adv c) (eatWhile_adv _ _ _ _ _ h)
      · exact curAdv_trans (curAdv_adv c) (eatWhile_adv _ _ _ _ _ h)
      · obtain rfl := Option.some.inj h
        exact curAdv_adv c
    · obtain rfl := Option.some.inj h
      exact curAdv_adv c

theorem eatNumber_adv (o : Bool) (c : Cursor) (k : TokenKind) (c' : Cursor)
    (h : eatNumber o c = some (k, c')) : CurAdv c c' := by
  rw [eatNumber.eq_def] at h
  split at h
  · exact absurd h (by simp)
  next c1 hc1 =>
    have a1 := eatWhile_adv _ _ _ _ _ hc1
    split_ifs at h
    · split at h
      · exact absurd h (by simp)
      next c3 hc3 =>
        have a3 := eatWhile_adv _ _ _ _ _ hc3
        split at h
        · exact absurd h (by simp)
        next c4 hc4 =>
          have a4 := eatNumSuffix_adv _ _ _ hc4
          obtain ⟨-, rfl⟩ := Prod.mk.injEq .. |>.mp (Option.some.inj h)
          exact curAdv_trans a1 (curAdv_trans (curAdv_adv c1)
            (curAdv_trans a3 a4))
    · split at h
      · exact absurd h (by simp)
      next c2 hc2 =>
        have a2 := eatNumSuffix_adv _ _ _ hc2
        obtain ⟨-, rfl⟩ := Prod.mk.injEq .. |>.mp (Option.some.inj h)
        exact curAdv_trans a1 a2
    · obtain ⟨-, rfl⟩ := Prod.mk.injEq .. |>.mp (Option.some.inj h)
      exact a1

theorem eatBasedNumber_adv (digit : Char → Bool) (base : NumBase) (o : Bool)
    (c : Cursor) (k : TokenKind) (c' : Cursor)
    (h : eatBasedNumber digit base o c = some (k, c')) : CurAdv c c' := by
  rw [eatBasedNumber.eq_def] at h
  split at h
  · exact absurd h (by simp)
  next c1 hc1 =>
    have a1 := curAdv_trans (curAdv_adv c) (eatWhile_adv _ _ _ _ _ hc1)
    split_ifs at h
    · split at h
      · exact absurd h (by simp)
      next c3 hc3 =>
        have a3 := eatWhile_adv _ _ _ _ _ hc3
        split at h
        · exact absurd h (by simp)
        next c4 hc4 =>
          have a4 := eatNumSuffix_adv _ _ _ hc4
          obtain ⟨-, rfl⟩ := Prod.mk.injEq .. |>.mp (Option.some.inj h)
          exact curAdv_trans a1 (curAdv_trans (curAdv_adv c1)
            (curAdv_trans a3 a4))
    · split at h
      · exact absurd h (by simp)
      next c2 hc2 =>
        have a2 := eatNumSuffix_adv _ _ _ hc2
        obtain ⟨-, rfl⟩ := Prod.mk.injEq .. |>.mp (Option.some.inj h)
        exact curAdv_trans a1 a2
    · obtain ⟨-, rfl⟩ := Prod.mk.injEq .. |>.mp (Option.some.inj h)
      exact a1

theorem eatHexNumber_adv (o : Bool) (c : Cursor) (k : TokenKind) (c' : Cursor)
    (h : eatHexNumber o c = some (k, c')) : CurAdv c c' := by
  rw [eatHexNumber.eq_def] at h
  split at h
  · exact absurd h (by simp)
  next c1 hc1 =>
    have a1 := curAdv_trans (curAdv_adv c) (eatWhile_adv _ _ _ _ _ hc1)
    split_ifs at h
    · split at h
      · exact absurd h (by simp)
      next c3 hc3 =>
        have a3 := eatWhile_adv _ _ _ _ _ hc3
        split at h
        · exact absurd h (by simp)
        next c4 hc4 =>
          have a4 := eatNumSuffix_adv _ _ _ hc4
          obtain ⟨-, rfl⟩ := Prod.mk.injEq .. |>.mp (Option.some.inj h)
          exact curAdv_trans a1 (curAdv_trans (curAdv_adv c1)
            (curAdv_trans a3 a4))
    · split at h
      · exact absurd h (by simp)
      next c2 hc2 =>
        have a2 := eatNumSuffix_adv _ _ _ hc2
        obtain ⟨-, rfl⟩ := Prod.mk.injEq .. |>.mp (Option.some.inj h)
        exact curAdv_trans a1 a2
    · obtain ⟨-, rfl⟩ := Prod.mk.injEq .. |>.mp (Option.some.inj h)
      exact a1

theorem readNumber_adv (first : Char) (o : Bool) (c : Cursor) (k : TokenKind)
    (c' : Cursor) (h : readNumber first o c = some (k, c')) : CurAdv c c' := by
  rw [readNumber.eq_def] at h
  split_ifs at h
  · obtain ⟨-, rfl⟩ := Prod.mk.injEq .. |>.mp (Option.some.inj h)
    exact curAdv_rfl c
  · split at h
    · exact eatBasedNumber_adv _ _ _ _ _ _ h
    · exact eatBasedNumber_adv _ _ _ _ _ _ h
    · exact eatHexNumber_adv _ _ _ _ h
    · exact eatBasedNumber_adv _ _ _ _ _ _ h
  · exact eatNumber_adv _ _ _ _ h

theorem readDivOrComment_adv (o : Bool) (c : Cursor) (k : TokenKind)
    (c' : Cursor) (h : readDivOrComment o c = some (k, c')) : CurAdv c c' := by
  rw [readDivOrComment.eq_def] at h
  split at h
  · rcases hb : eatWhile blockCommentPred o 2 c with _ | cb <;> rw [hb] at h
    · exact absurd h (by simp)
    · obtain ⟨-, rfl⟩ := Prod.mk.injEq .. |>.mp (Option.some.inj (by simpa using h))
      exact eatWhile_adv _ _ _ _ _ hb
  · rcases hb : eatLineComment o c with _ | cb <;> rw [hb] at h
    · exact absurd h (by simp)
    · obtain ⟨-, rfl⟩ := Prod.mk.injEq .. |>.mp (Option.some.inj (by simpa using h))
      exact eatLineComment_adv _ _ _ hb
  · obtain ⟨-, rfl⟩ := Prod.mk.injEq .. |>.mp (Option.some.inj h)
    exact curAdv_rfl c

theorem optionMap_adv (r : Option Cursor) (tk k : TokenKind) (c2 base : Cursor)
    (hr : ∀ c', r = some c' → CurAdv base c')
    (h : r.map (fun c' => (tk, c')) = some (k, c2)) : CurAdv base c2 := by
  cases r with
  | none => exact absurd h (by simp)
  | some cb =>
    simp only [Option.map_some'] at h
    obtain ⟨-, rfl⟩ := Prod.mk.injEq .. |>.mp (Option.some.inj h)
    exact hr cb rfl

theorem readTokenDispatch_adv (o : Bool) (ch : Char) (c1 : Cursor)
    (k : TokenKind) (c2 : Cursor)
    (h : readTokenDispatch o ch c1 = some (k, c2)) : CurAdv c1 c2 := by
  rw [readTokenDispatch.eq_def] at h
  split at h <;>
    first
      | (obtain ⟨-, rfl⟩ := Prod.mk.injEq .. |>.mp (Option.some.inj h);
         exact curAdv_rfl c1)
      | (exact readDivOrComment_adv _ _ _ _ h)
      | (exact optionMap_adv _ _ _ _ c1
          (fun c' h' => eatWhile_adv _ _ _ _ _ h') h)
      | (split_ifs at h <;>
          first
            | (exact optionMap_adv _ _ _ _ c1
                (fun c' h' => eatWhile_adv _ _ _ _ _ h') h)
            | (exact readNumber_adv _ _ _ _ _ h)
            | (obtain ⟨-, rfl⟩ := Prod.mk.injEq .. |>.mp (Option.some.inj h);
               exact curAdv_rfl c1))

/-- `read_token` on a fresh-length cursor: the emitted token starts at
the cursor's index, the new cursor sits exactly `size` further, and its
length counter is reset. -/
theorem readToken_spec (o : Bool) (c : Cursor) (t : Token) (c' : Cursor)
    (h : readToken o c = some (some t, c')) (h0 : c.len = 0) :
    t.index = c.index ∧ c'.index = c.index + t.size ∧ c'.len = 0 := by
  rw [readToken.eq_def] at h
  split at h
  · exact absurd h (by simp)
  next ch rest hbuf =>
    split at h
    · exact absurd h (by simp)
    next kind c2 hd =>
      obtain ⟨ht, rfl⟩ := Prod.mk.injEq .. |>.mp (Option.some.inj h)
      obtain ⟨d, hdl, hdi⟩ := readTokenDispatch_adv _ _ _ _ _ hd
      simp only at hdl hdi
      obtain rfl := Option.some.inj ht
      refine ⟨?_, ?_, rfl⟩
      · simp only [Cursor.resetLen]
        omega
      · simp only [Cursor.resetLen]
        omega

theorem readToken_none (o : Bool) (c c' : Cursor)
    (h : readToken o c = some (none, c')) : c' = c := by
  rw [readToken.eq_def] at h
  split at h
  · exact ((Prod.mk.injEq .. |>.mp (Option.some.inj h)).2).symm
  · split at h
    · exact absurd h (by simp)
    · exact absurd (Prod.mk.injEq .. |>.mp (Option.some.inj h)).1 (by simp)

theorem mkNew_props (src : List Char) (l : Lexer) (h : Lexer.mkNew src = some l) :
    l.input.len = 0 ∧
      ∀ t, l.curTok = some t →
        l.input.index = t.index + t.size ∧ t.index = 0 := by
  unfold Lexer.mkNew at h
  cases hr : readToken false (Cursor.new src) with
  | none => rw [hr] at h; exact absurd h (by simp)
  | some tc =>
    rw [hr] at h
    simp only [Option.map_some'] at h
    obtain rfl := (Option.some.inj h).symm
    obtain ⟨t?, c'⟩ := tc
    dsimp only
    cases t? with
    | none =>
      obtain rfl := readToken_none _ _ _ hr
      exact ⟨rfl, fun t ht => by simp at ht⟩
    | some t =>
      obtain ⟨hi, hsz, hlen⟩ := readToken_spec _ _ _ _ hr rfl
      refine ⟨hlen, fun u hu => ?_⟩
      obtain rfl := Option.some.inj hu
      simp only [Cursor.new] at hi hsz
      exact ⟨by omega, hi⟩

theorem lexNext_step (l : Lexer) (t : Token) (l' : Lexer)
    (h0 : l.input.len = 0)
    (hinv : ∀ u, l.curTok = some u → l.input.index = u.index + u.size)
    (h : lexNext l = some (some t, l')) :
    l.curTok = some t ∧ l'.input.len = 0 ∧
      ∀ u, l'.curTok = some u →
        l'.input.index = u.index + u.size ∧ u.index = t.index + t.size := by
  unfold lexNext at h
  cases hr : readToken l.curTok.isSome l.input with
  | none => rw [hr] at h; exact absurd h (by simp)
  | some tc =>
    rw [hr] at h
    simp only [Option.map_some'] at h
    obtain ⟨hct, rfl⟩ := Prod.mk.injEq .. |>.mp (Option.some.inj h)
    obtain ⟨t?, c'⟩ := tc
    dsimp only
    refine ⟨hct, ?_, ?_⟩
    · cases t? with
      | none => obtain rfl := readToken_none _ _ _ hr; exact h0
      | some u => exact (readToken_spec _ _ _ _ hr h0).2.2
    · intro u hu
      cases t? with
      | none => exact absurd hu (by simp)
      | some w =>
        obtain rfl : w = u := Option.some.inj hu
        obtain ⟨hi, hsz, -⟩ := readToken_spec _ _ _ _ hr h0
        have hix := hinv t hct
        exact ⟨by omega, by omega⟩

/-- Token spans are contiguous: each token starts exactly where the
previous one ended. -/
def spansChained : Nat → List Token → Prop
  | _, [] => True
  | start, t :: ts => t.index = start ∧ spansChained (start + t.size) ts

theorem lexAll_chain : ∀ (n : Nat) (l : Lexer) (start : Nat),
    l.input.len = 0 →
    (∀ u, l.curTok = some u → l.input.index = u.index + u.size) →
    (∀ u, l.curTok = some u → u.index = start) →
    spansChained start (lexAll n l) := by
  intro n
  induction n with
  | zero => intro l start _ _ _; trivial
  | succ n ih =>
    intro l start h0 hinv hstart
    rw [lexAll]
    cases hx : lexNext l with
    | none => trivial
    | some r =>
      obtain ⟨t?, l'⟩ := r
      cases t? with
      | none => trivial
      | some t =>
        obtain ⟨hct, h0', hnext⟩ := lexNext_step l t l' h0 hinv hx
        refine ⟨hstart t hct, ih l' (start + t.size) h0'
          (fun u hu => (hnext u hu).1) (fun u hu => ?_)⟩
        rw [(hnext u hu).2, hstart t hct]

/-- C3 amended: the spans of the emitted token stream are contiguous
from offset 0 — every token begins exactly where the previous one
ended, so slicing at `[index, index + size)` is exactly the region the
scanner consumed for that token; but `index + size` can exceed the
source length when a string or comment runs past end of input (see the
counterexample: the source consisting of a single `"` yields a token
with index 0 and size 3). -/
theorem c3_spans_contiguous (src : List Char) (n : Nat) :
    spansChained 0 (lexList n src) := by
  unfold lexList
  cases hm : Lexer.mkNew src with
  | none => trivial
  | some l =>
    obtain ⟨h0, hrest⟩ := mkNew_props src l hm
    exact lexAll_chain n l 0 h0 (fun u hu => (hrest u hu).1)
      (fun u hu => (hrest u hu).2)
